import Mathlib

/-!
Events: the `Event` channel of `src/Events.hpp`.

A shallow embedding of the class template `Events::Event<TSyncPolicy, TEvtArgs...>`.

* `Handlers_t` is `std::map<int, Handler_t>`: a list of `(handlerID, handler)` entries whose
  keys are strictly ascending, which is the order in which `begin() .. end()` visits them.
* `mOneShotHandlerIDs` is `std::list<int>`: a plain list, duplicates and stale IDs included.
* `rand()` is a stream `g : Nat → Int` of the values its successive calls return, together
  with the number `pos` of calls made so far.
* A handler ID is an `int`. The class only compares IDs (`==`, `<`) and never computes with
  them, so an ID is an `Int` here.
* A handler is a value of type `H`; calling it on the arguments `A` is given by
  `invoke : H → A → W → W × Option E`, where `W` is the state of the rest of the program
  (the state the closure captured) and `some e` means that the call threw `e`.
  Handlers do not call back into the channel they are registered on (the `@warning` of the
  class).
* The `do .. while` loop of `generateHandlerID` need not terminate, so it takes fuel: the
  number of `rand()` calls it may make. `none` means that the fuel ran out.
* `TSyncPolicy` is a `SyncPolicy`. The lock is followed through the steps of one member
  (`Action`): the guard's constructor, the accesses of the two data members, the handler
  calls, the guard's destructor. `lockReplay` runs the held/free flag of `mLocker` along
  these steps; a `lock()` on a held lock does not return.
* Two threads on one channel are the steps of two members run in the order of a schedule
  (`interleave`); a schedule runs when `lockReplay` follows its steps to the end.
-/

namespace Events

variable {H A W E : Type}

/-! ## `std::map<int, Handler_t>` -/

/-- The key order of `std::map<int, _>`: `std::less<int>` on the keys of two entries. -/
def keyLt (a b : Int × H) : Prop := a.1 < b.1

instance decKeyLt (a b : Int × H) : Decidable (keyLt a b) := by
  unfold keyLt; infer_instance

/-- The lookup `find(k)` on the entries, `none` for `end()`. -/
def findEntry : List (Int × H) → Int → Option H
  | [], _ => none
  | (k', h') :: rest, k => if k' = k then some h' else findEntry rest k

/-- The insertion `insert(pair(k, h))` on the entries: the pair goes at its place in the key
order, and nothing changes when the key is already present. -/
def insertEntry : List (Int × H) → Int → H → List (Int × H)
  | [], k, h => [(k, h)]
  | (k', h') :: rest, k, h =>
    if k < k' then (k, h) :: (k', h') :: rest
    else if k = k' then (k', h') :: rest
    else (k', h') :: insertEntry rest k h

/-- The removal `erase(k)` on the entries: the entry with key `k` goes, if there is one. -/
def eraseEntry (l : List (Int × H)) (k : Int) : List (Int × H) :=
  l.filter (fun e => decide (e.1 ≠ k))

theorem insertEntry_head (l : List (Int × H)) (k : Int) (h : H) (x : Int × H)
    (hx : ∀ e ∈ l, keyLt x e) (hk : x.1 < k) : ∀ e ∈ insertEntry l k h, keyLt x e := by
  induction l with
  | nil =>
    intro e he
    simp only [insertEntry, List.mem_singleton] at he
    subst he
    exact hk
  | cons y rest ih =>
    obtain ⟨k', h'⟩ := y
    intro e he
    simp only [insertEntry] at he
    split_ifs at he with h1 h2
    · rcases List.mem_cons.1 he with rfl | he'
      · exact hk
      · exact hx e he'
    · exact hx e he
    · rcases List.mem_cons.1 he with rfl | he'
      · exact hx _ (List.mem_cons_self _ _)
      · exact ih (fun e he => hx e (List.mem_cons_of_mem _ he)) e he'

theorem insertEntry_pairwise (l : List (Int × H)) (k : Int) (h : H)
    (hl : l.Pairwise keyLt) : (insertEntry l k h).Pairwise keyLt := by
  induction l with
  | nil => simp [insertEntry]
  | cons y rest ih =>
    obtain ⟨k', h'⟩ := y
    rw [List.pairwise_cons] at hl
    simp only [insertEntry]
    split_ifs with h1 h2
    · refine List.pairwise_cons.2 ⟨?_, List.pairwise_cons.2 hl⟩
      intro e he
      rcases List.mem_cons.1 he with rfl | he'
      · exact h1
      · exact lt_trans h1 (hl.1 e he')
    · exact List.pairwise_cons.2 hl
    · refine List.pairwise_cons.2 ⟨?_, ih hl.2⟩
      refine insertEntry_head rest k h (k', h') hl.1 ?_
      show k' < k
      omega

theorem eraseEntry_pairwise (l : List (Int × H)) (k : Int)
    (hl : l.Pairwise keyLt) : (eraseEntry l k).Pairwise keyLt :=
  List.Pairwise.filter _ hl

/-- The type `Handlers_t`, `std::map<int, Handler_t>`: entries with strictly ascending keys. -/
structure Handlers_t (H : Type) where
  entries : List (Int × H)
  ordered : entries.Pairwise keyLt

instance decEqHandlers [DecidableEq H] : DecidableEq (Handlers_t H) := fun a b =>
  decidable_of_iff (a.entries = b.entries) (by
    cases a; cases b; simp)

namespace Handlers_t

/-- The empty map of a freshly constructed `Event`. -/
def empty : Handlers_t H := ⟨[], List.Pairwise.nil⟩

/-- The member `find`, `none` for `end()`. -/
def find (m : Handlers_t H) (k : Int) : Option H := findEntry m.entries k

/-- The member `insert`. -/
def insert (m : Handlers_t H) (k : Int) (h : H) : Handlers_t H :=
  ⟨insertEntry m.entries k h, insertEntry_pairwise m.entries k h m.ordered⟩

/-- The member `erase` by key. -/
def erase (m : Handlers_t H) (k : Int) : Handlers_t H :=
  ⟨eraseEntry m.entries k, eraseEntry_pairwise m.entries k m.ordered⟩

/-- The keys of the map, in iteration order. -/
def keys (m : Handlers_t H) : List Int := m.entries.map Prod.fst

end Handlers_t

/-! ## The class `Event` -/

/-- The data members of `Event`: `mHandlers` and `mOneShotHandlerIDs`. -/
structure Event (H : Type) where
  mHandlers : Handlers_t H
  mOneShotHandlerIDs : List Int
deriving DecidableEq

namespace Event

/-- A freshly constructed `Event`: no handler, no one-shot ID. -/
def empty : Event H := ⟨Handlers_t.empty, []⟩

/-- The private member `generateHandlerID`: draw `rand()` until the value is nonzero and not
a key of `mHandlers`. `g` lists the values of `rand()`, `pos` counts the calls made so far,
the fuel bounds the calls made here. Returns the ID and the new count. -/
def generateHandlerID (g : Nat → Int) (s : Event H) : Nat → Nat → Option (Int × Nat)
  | 0, _ => none
  | fuel + 1, pos =>
    let ret := g pos
    if ret = 0 ∨ (s.mHandlers.find ret).isSome then generateHandlerID g s fuel (pos + 1)
    else some (ret, pos + 1)

/-- The member `subscribe(handler, oneShot)`: returns the handler ID, the new channel and the
new count of `rand()` calls. -/
def subscribe (g : Nat → Int) (fuel : Nat) (s : Event H) (pos : Nat) (handler : H)
    (oneShot : Bool) : Option (Int × Event H × Nat) :=
  match generateHandlerID g s fuel pos with
  | none => none
  | some (handlerID, pos') =>
    some (handlerID,
      ⟨s.mHandlers.insert handlerID handler,
        if oneShot then s.mOneShotHandlerIDs ++ [handlerID] else s.mOneShotHandlerIDs⟩,
      pos')

/-- The member `unsubscribe(handlerID)`. -/
def unsubscribe (s : Event H) (handlerID : Int) : Event H :=
  ⟨s.mHandlers.erase handlerID, s.mOneShotHandlerIDs⟩

/-- The first loop of `rise`: call the handlers in iteration order. Returns the calls made,
as `(handlerID, handler, args)` in the order they were made, the state of the rest of the
program, and the exception that ended the loop, if any. -/
def dispatch (invoke : H → A → W → W × Option E) (args : A) :
    List (Int × H) → W → List (Int × H × A) × W × Option E
  | [], w => ([], w, none)
  | (id, h) :: rest, w =>
    match invoke h args w with
    | (w', some e) => ([(id, h, args)], w', some e)
    | (w', none) =>
      let r := dispatch invoke args rest w'
      ((id, h, args) :: r.1, r.2.1, r.2.2)

/-- The second loop of `rise`: erase every ID of the one-shot list from the map. -/
def removeOneShot (m : Handlers_t H) (ids : List Int) : Handlers_t H :=
  ids.foldl Handlers_t.erase m

/-- What a call of `rise` leaves behind. -/
structure RiseResult (H A W E : Type) where
  calls : List (Int × H × A)
  world : W
  raised : Option E
  event : Event H

/-- The member `rise(val...)`. When a handler throws, the exception leaves `rise` at once:
the later handlers are not called and the one-shot clean-up is not run. -/
def rise (invoke : H → A → W → W × Option E) (s : Event H) (args : A) (w : W) :
    RiseResult H A W E :=
  match dispatch invoke args s.mHandlers.entries w with
  | (calls, w', some e) => ⟨calls, w', some e, s⟩
  | (calls, w', none) =>
    ⟨calls, w', none, ⟨removeOneShot s.mHandlers s.mOneShotHandlerIDs, []⟩⟩

end Event

/-! ## Sequences of operations -/

/-- One call of a public member of `Event`. -/
inductive Op (H A : Type) where
  | subscribe (handler : H) (oneShot : Bool)
  | unsubscribe (handlerID : Int)
  | rise (args : A)
deriving DecidableEq

/-- Whether the call is a `subscribe`. -/
def Op.isSubscribe : Op H A → Bool
  | .subscribe _ _ => true
  | _ => false

/-- The channel, the number of `rand()` calls made so far and the state of the rest of the
program. -/
structure Config (H W : Type) where
  event : Event H
  pos : Nat
  world : W
deriving DecidableEq

/-- Run one call. An exception that leaves `rise` is caught by the caller, which goes on with
the next call. `none` means that `subscribe` ran out of fuel. -/
def step (invoke : H → A → W → W × Option E) (g : Nat → Int) (fuel : Nat)
    (c : Config H W) : Op H A → Option (Config H W)
  | .subscribe handler oneShot =>
    match c.event.subscribe g fuel c.pos handler oneShot with
    | none => none
    | some (_, s', pos') => some ⟨s', pos', c.world⟩
  | .unsubscribe handlerID => some ⟨c.event.unsubscribe handlerID, c.pos, c.world⟩
  | .rise args =>
    let r := c.event.rise invoke args c.world
    some ⟨r.event, c.pos, r.world⟩

/-- Run a sequence of calls, first to last. -/
def run (invoke : H → A → W → W × Option E) (g : Nat → Int) (fuel : Nat) :
    Config H W → List (Op H A) → Option (Config H W)
  | c, [] => some c
  | c, op :: ops =>
    match step invoke g fuel c op with
    | none => none
    | some c' => run invoke g fuel c' ops

/-! ## Concrete handlers, after the consumers of `main.cpp` -/

/-- A handler that prints its name and its argument, or one that prints and then throws. -/
inductive DemoHandler where
  | print (name : Nat)
  | printThrow (name : Nat)
deriving DecidableEq

/-- Calling a `DemoHandler`: the rest of the program is the list of lines printed so far. -/
def demoInvoke : DemoHandler → Int → List (Nat × Int) → List (Nat × Int) × Option Unit
  | .print name, val, out => (out ++ [(name, val)], none)
  | .printThrow name, val, out => (out ++ [(name, val)], some ())

/-- A channel whose first handler throws: IDs `1` (throws) and `2`, no one-shot ID. -/
def demoThrowFirst : Event DemoHandler :=
  ⟨⟨[(1, .printThrow 1), (2, .print 2)], by decide⟩, []⟩

/-- The values of `rand()`: those of the list, then `0` for ever. -/
def randOf (vals : List Int) : Nat → Int := fun n => vals.getD n 0

/-- A channel with the IDs `1` and `2`, no one-shot ID. -/
def demoFull : Event DemoHandler :=
  ⟨⟨[(1, .print 1), (2, .print 2)], by decide⟩, []⟩

/-- A `rand()` whose values are `0, 1, 2, 0, 1, 2, ...`: it can produce the IDs `1` and `2`
and no other. -/
def randCycle : Nat → Int := fun n => ((n % 3 : Nat) : Int)

/-! ## The synchronisation policy -/

/-- The template argument `TSyncPolicy`: the class of the guard object that every public
member of `Event` constructs first. -/
inductive SyncPolicy where
  | UnsafeSyncPolicy
  | SafeSyncPolicy
deriving DecidableEq

/-- What a member of `Event` does, one step at a time, as far as the lock is concerned:
`mLocker.lock()` returns, `mLocker.unlock()`, a read or write of `mHandlers` or
`mOneShotHandlerIDs`, a call of the handler registered under an ID. -/
inductive Action where
  | lock
  | unlock
  | access
  | call (handlerID : Int)
deriving DecidableEq

namespace SyncPolicy

/-- The constructor of the guard: `SafeSyncPolicy` locks `mLocker`, `UnsafeSyncPolicy` does
nothing. -/
def ctor : SyncPolicy → List Action
  | UnsafeSyncPolicy => []
  | SafeSyncPolicy => [Action.lock]

/-- The destructor of the guard, run when the member is left, by `return`, at the end of the
body, or by an exception passing through: `SafeSyncPolicy` unlocks `mLocker`. -/
def dtor : SyncPolicy → List Action
  | UnsafeSyncPolicy => []
  | SafeSyncPolicy => [Action.unlock]

end SyncPolicy

/-- Follow the lock along the steps of a member, from the flag `held`. The result is the flag
at the end, or `none` when a step is out of place: `lock()` on a lock that is held (it would
not return), `unlock()` on a lock that is free, or an access of the members while the lock is
free. A handler call is allowed in either state. -/
def lockReplay : Bool → List Action → Option Bool
  | held, [] => some held
  | held, Action.lock :: rest => if held then none else lockReplay true rest
  | held, Action.unlock :: rest => if held then lockReplay false rest else none
  | held, Action.access :: rest => if held then lockReplay held rest else none
  | held, Action.call _ :: rest => lockReplay held rest

namespace Event

/-- The steps of `generateHandlerID`: one `find` on `mHandlers` for every nonzero value drawn
(`ret == 0 ||` skips the `find` for a zero). `none` when the fuel runs out. -/
def generateHandlerIDActions (g : Nat → Int) (s : Event H) : Nat → Nat → Option (List Action)
  | 0, _ => none
  | fuel + 1, pos =>
    let ret := g pos
    if ret = 0 then generateHandlerIDActions g s fuel (pos + 1)
    else if (s.mHandlers.find ret).isSome then
      (generateHandlerIDActions g s fuel (pos + 1)).map (fun t => Action.access :: t)
    else some [Action.access]

/-- The steps of `subscribe`: the guard, `generateHandlerID`, the `insert`, the `push_back`
when `oneShot` is set, and the end of the guard at `return`. -/
def subscribeActions (policy : SyncPolicy) (g : Nat → Int) (fuel : Nat) (s : Event H)
    (pos : Nat) (oneShot : Bool) : Option (List Action) :=
  match generateHandlerIDActions g s fuel pos with
  | none => none
  | some t =>
    some (policy.ctor ++ t ++ [Action.access]
      ++ (if oneShot then [Action.access] else []) ++ policy.dtor)

/-- The steps of `unsubscribe`: the guard, the `erase`, the end of the guard. -/
def unsubscribeActions (policy : SyncPolicy) : List Action :=
  policy.ctor ++ [Action.access] ++ policy.dtor

/-- The steps of the first loop of `rise` for the calls it makes: the entry is read through
the iterator, then the handler is called. -/
def callActions : List (Int × H × A) → List Action
  | [] => []
  | c :: rest => Action.access :: Action.call c.1 :: callActions rest

/-- The steps of `rise`: the guard; the calls; when no handler threw, the test that ends the
first loop, one `erase` for every ID of the one-shot list and the `clear`; the end of the
guard, which an exception on its way out of `rise` runs as well. -/
def riseActions (policy : SyncPolicy) (invoke : H → A → W → W × Option E) (s : Event H)
    (args : A) (w : W) : List Action :=
  policy.ctor
    ++ callActions (s.rise invoke args w).calls
    ++ (match (s.rise invoke args w).raised with
        | some _ => []
        | none =>
          Action.access :: (s.mOneShotHandlerIDs.map (fun _ => Action.access)
            ++ [Action.access]))
    ++ policy.dtor

end Event

/-! ## Two threads on one channel -/

theorem findEntry_eq_none_iff (l : List (Int × H)) (k : Int) :
    findEntry l k = none ↔ k ∉ l.map Prod.fst := by
  induction l with
  | nil => simp [findEntry]
  | cons y rest ih =>
    obtain ⟨k', h'⟩ := y
    by_cases hk : k' = k
    · simp [findEntry, hk]
    · have hk' : ¬ k = k' := fun h => hk h.symm
      simp [findEntry, hk, hk', ih]

theorem findEntry_eq_some_iff (l : List (Int × H)) (hl : l.Pairwise keyLt) (k : Int) (h : H) :
    findEntry l k = some h ↔ (k, h) ∈ l := by
  induction l with
  | nil => simp [findEntry]
  | cons y rest ih =>
    obtain ⟨k', h'⟩ := y
    rw [List.pairwise_cons] at hl
    by_cases hk : k' = k
    · subst hk
      have hno : ∀ h, (k', h) ∉ rest := fun h hm => lt_irrefl k' (hl.1 _ hm)
      simp [findEntry, hno]
      exact eq_comm
    · have hk' : ¬ k = k' := fun h => hk h.symm
      simp [findEntry, hk, hk', ih hl.2]

theorem insertEntry_perm (l : List (Int × H)) (k : Int) (h : H) (hk : k ∉ l.map Prod.fst) :
    (insertEntry l k h).Perm ((k, h) :: l) := by
  induction l with
  | nil => simp [insertEntry]
  | cons y rest ih =>
    obtain ⟨k', h'⟩ := y
    simp only [List.map_cons, List.mem_cons, not_or] at hk
    simp only [insertEntry]
    split_ifs with h1 h2
    · exact List.Perm.refl _
    · exact absurd h2 hk.1
    · exact ((ih hk.2).cons (k', h')).trans (List.Perm.swap _ _ _)

theorem findEntry_insertEntry (l : List (Int × H)) (k : Int) (h : H)
    (hk : k ∉ l.map Prod.fst) (k' : Int) :
    findEntry (insertEntry l k h) k' = if k' = k then some h else findEntry l k' := by
  induction l with
  | nil =>
    by_cases e : k = k'
    · simp [insertEntry, findEntry, e]
    · have e' : ¬ k' = k := fun h => e h.symm
      simp [insertEntry, findEntry, e, e']
  | cons y rest ih =>
    obtain ⟨k0, h0⟩ := y
    simp only [List.map_cons, List.mem_cons, not_or] at hk
    simp only [insertEntry]
    by_cases h1 : k < k0
    · rw [if_pos h1]
      by_cases h3 : k' = k
      · subst h3; simp [findEntry]
      · have e' : ¬ k = k' := fun h => h3 h.symm
        simp [findEntry, e', h3]
    · rw [if_neg h1, if_neg hk.1]
      by_cases h4 : k' = k
      · subst h4
        have e' : ¬ k0 = k' := fun h => hk.1 h.symm
        simp [findEntry, e', ih hk.2]
      · by_cases e : k0 = k'
        · simp [findEntry, e, h4]
        · simp [findEntry, e, ih hk.2, h4]

theorem eraseEntry_cons (k0 : Int) (h0 : H) (rest : List (Int × H)) (k : Int) :
    eraseEntry ((k0, h0) :: rest) k
      = if k0 = k then eraseEntry rest k else (k0, h0) :: eraseEntry rest k := by
  unfold eraseEntry
  by_cases e : k0 = k
  · rw [if_pos e, List.filter_cons_of_neg]
    simpa using e
  · rw [if_neg e, List.filter_cons_of_pos]
    simpa using e

theorem findEntry_eraseEntry (l : List (Int × H)) (k k' : Int) :
    findEntry (eraseEntry l k) k' = if k' = k then none else findEntry l k' := by
  induction l with
  | nil => simp [eraseEntry, findEntry]
  | cons y rest ih =>
    obtain ⟨k0, h0⟩ := y
    rw [eraseEntry_cons]
    by_cases e : k0 = k
    · rw [if_pos e, ih]
      by_cases e2 : k' = k
      · rw [if_pos e2, if_pos e2]
      · have e3 : ¬ k0 = k' := fun h => e2 (h ▸ e)
        rw [if_neg e2, if_neg e2]
        simp [findEntry, e3]
    · rw [if_neg e]
      by_cases e3 : k0 = k'
      · have e2 : ¬ k' = k := fun h => e (e3.trans h)
        simp [findEntry, e3, e2]
      · simp [findEntry, e3, ih]

theorem eraseEntry_of_not_mem (l : List (Int × H)) (k : Int) (hk : k ∉ l.map Prod.fst) :
    eraseEntry l k = l := by
  unfold eraseEntry
  rw [List.filter_eq_self]
  intro e he
  have : e.1 ≠ k := fun h => hk (h ▸ List.mem_map_of_mem Prod.fst he)
  simpa using this

theorem Handlers_t.ext_entries (m m' : Handlers_t H) (h : m.entries = m'.entries) : m = m' := by
  cases m; cases m'; simp at h; simp [h]

theorem Handlers_t.keys_nodup (m : Handlers_t H) : m.keys.Nodup := by
  unfold Handlers_t.keys
  have h := m.ordered
  generalize m.entries = l at h
  induction l with
  | nil => simp
  | cons y rest ih =>
    rw [List.pairwise_cons] at h
    simp only [List.map_cons, List.nodup_cons]
    refine ⟨?_, ih h.2⟩
    intro hm
    obtain ⟨e, he, hke⟩ := List.mem_map.1 hm
    have := h.1 e he
    unfold keyLt at this
    omega

theorem Handlers_t.find_eq_none_iff (m : Handlers_t H) (k : Int) :
    m.find k = none ↔ k ∉ m.keys :=
  findEntry_eq_none_iff m.entries k

theorem Handlers_t.find_eq_some_iff (m : Handlers_t H) (k : Int) (h : H) :
    m.find k = some h ↔ (k, h) ∈ m.entries :=
  findEntry_eq_some_iff m.entries m.ordered k h

theorem Handlers_t.find_erase (m : Handlers_t H) (k k' : Int) :
    (m.erase k).find k' = if k' = k then none else m.find k' :=
  findEntry_eraseEntry m.entries k k'

theorem Handlers_t.find_insert (m : Handlers_t H) (k : Int) (h : H) (hk : m.find k = none)
    (k' : Int) : (m.insert k h).find k' = if k' = k then some h else m.find k' :=
  findEntry_insertEntry m.entries k h ((m.find_eq_none_iff k).1 hk) k'

theorem Handlers_t.erase_of_find_none (m : Handlers_t H) (k : Int) (hk : m.find k = none) :
    m.erase k = m :=
  Handlers_t.ext_entries _ _ (eraseEntry_of_not_mem m.entries k ((m.find_eq_none_iff k).1 hk))

/-! ## Facts about the members of `Event` -/

namespace Event

theorem generateHandlerID_spec (g : Nat → Int) (s : Event H) (fuel pos : Nat) (id : Int)
    (pos' : Nat) (hg : generateHandlerID g s fuel pos = some (id, pos')) :
    id ≠ 0 ∧ s.mHandlers.find id = none := by
  induction fuel generalizing pos with
  | zero => simp [generateHandlerID] at hg
  | succ n ih =>
    simp only [generateHandlerID] at hg
    split_ifs at hg with hc
    · exact ih _ hg
    · simp only [Option.some.injEq, Prod.mk.injEq] at hg
      rw [not_or] at hc
      rw [← hg.1]
      refine ⟨hc.1, ?_⟩
      cases hf : s.mHandlers.find (g pos) with
      | none => rfl
      | some v => simp [hf] at hc

theorem subscribe_eq_some (g : Nat → Int) (fuel : Nat) (s : Event H) (pos : Nat) (h : H)
    (o : Bool) (id : Int) (s' : Event H) (pos' : Nat)
    (hs : s.subscribe g fuel pos h o = some (id, s', pos')) :
    generateHandlerID g s fuel pos = some (id, pos')
      ∧ s' = ⟨s.mHandlers.insert id h,
          if o then s.mOneShotHandlerIDs ++ [id] else s.mOneShotHandlerIDs⟩ := by
  unfold subscribe at hs
  cases hg : generateHandlerID g s fuel pos with
  | none => simp [hg] at hs
  | some r =>
    obtain ⟨id0, p0⟩ := r
    simp only [hg, Option.some.injEq, Prod.mk.injEq] at hs
    obtain ⟨h1, h2, h3⟩ := hs
    subst h1; subst h3
    exact ⟨rfl, h2.symm⟩

theorem find_removeOneShot (m : Handlers_t H) (ids : List Int) (k : Int) :
    (removeOneShot m ids).find k = if k ∈ ids then none else m.find k := by
  unfold removeOneShot
  induction ids generalizing m with
  | nil => simp
  | cons i rest ih =>
    rw [List.foldl_cons, ih, Handlers_t.find_erase]
    by_cases h1 : k ∈ rest
    · simp [h1]
    · by_cases h2 : k = i
      · simp [h2]
      · simp [h1, h2]

theorem entries_removeOneShot (m : Handlers_t H) (ids : List Int) :
    (removeOneShot m ids).entries = m.entries.filter (fun e => decide (e.1 ∉ ids)) := by
  unfold removeOneShot
  induction ids generalizing m with
  | nil => simp
  | cons i rest ih =>
    rw [List.foldl_cons, ih]
    show List.filter _ (eraseEntry m.entries i) = _
    unfold eraseEntry
    rw [List.filter_filter]
    congr 1
    funext e
    by_cases h1 : e.1 = i <;> by_cases h2 : e.1 ∈ rest <;> simp [h1, h2]

theorem dispatch_calls_sublist (invoke : H → A → W → W × Option E) (args : A)
    (l : List (Int × H)) (w : W) :
    (dispatch invoke args l w).1.Sublist (l.map (fun e => (e.1, e.2, args))) := by
  induction l generalizing w with
  | nil => simp [dispatch]
  | cons y rest ih =>
    obtain ⟨id, h⟩ := y
    rcases hi : invoke h args w with ⟨w', _ | e⟩
    · simp only [dispatch, hi, List.map_cons]
      exact (ih w').cons₂ _
    · simp only [dispatch, hi, List.map_cons]
      exact (List.nil_sublist _).cons₂ _

theorem dispatch_calls_of_none (invoke : H → A → W → W × Option E) (args : A)
    (l : List (Int × H)) (w : W) (hn : (dispatch invoke args l w).2.2 = none) :
    (dispatch invoke args l w).1 = l.map (fun e => (e.1, e.2, args)) := by
  induction l generalizing w with
  | nil => simp [dispatch]
  | cons y rest ih =>
    obtain ⟨id, h⟩ := y
    rcases hi : invoke h args w with ⟨w', _ | e⟩
    · simp only [dispatch, hi] at hn
      simp only [dispatch, hi, List.map_cons]
      rw [ih w' hn]
    · simp [dispatch, hi] at hn

theorem rise_calls_eq (invoke : H → A → W → W × Option E) (s : Event H) (args : A) (w : W) :
    (s.rise invoke args w).calls = (dispatch invoke args s.mHandlers.entries w).1 := by
  unfold rise
  rcases dispatch invoke args s.mHandlers.entries w with ⟨calls, w', _ | e⟩ <;> rfl

theorem rise_raised_eq (invoke : H → A → W → W × Option E) (s : Event H) (args : A) (w : W) :
    (s.rise invoke args w).raised = (dispatch invoke args s.mHandlers.entries w).2.2 := by
  unfold rise
  rcases dispatch invoke args s.mHandlers.entries w with ⟨calls, w', _ | e⟩ <;> rfl

theorem rise_event_of_none (invoke : H → A → W → W × Option E) (s : Event H) (args : A)
    (w : W) (hn : (s.rise invoke args w).raised = none) :
    (s.rise invoke args w).event = ⟨removeOneShot s.mHandlers s.mOneShotHandlerIDs, []⟩ := by
  unfold rise at hn ⊢
  generalize dispatch invoke args s.mHandlers.entries w = d at hn ⊢
  rcases d with ⟨calls, w', _ | e⟩
  · rfl
  · cases hn

theorem rise_event_of_some (invoke : H → A → W → W × Option E) (s : Event H) (args : A)
    (w : W) (e : E) (hn : (s.rise invoke args w).raised = some e) :
    (s.rise invoke args w).event = s := by
  unfold rise at hn ⊢
  generalize dispatch invoke args s.mHandlers.entries w = d at hn ⊢
  rcases d with ⟨calls, w', _ | e0⟩
  · cases hn
  · rfl

theorem rise_calls_sublist (invoke : H → A → W → W × Option E) (s : Event H) (args : A)
    (w : W) :
    (s.rise invoke args w).calls.Sublist (s.mHandlers.entries.map (fun e => (e.1, e.2, args))) := by
  rw [rise_calls_eq]
  exact dispatch_calls_sublist invoke args _ w

theorem rise_calls_of_none (invoke : H → A → W → W × Option E) (s : Event H) (args : A)
    (w : W) (hn : (s.rise invoke args w).raised = none) :
    (s.rise invoke args w).calls = s.mHandlers.entries.map (fun e => (e.1, e.2, args)) := by
  rw [rise_raised_eq] at hn
  rw [rise_calls_eq]
  exact dispatch_calls_of_none invoke args _ w hn

/-- After `rise` a key is registered only if it was registered before. -/
theorem rise_find_none (invoke : H → A → W → W × Option E) (s : Event H) (args : A)
    (w : W) (k : Int) (hk : s.mHandlers.find k = none) :
    (s.rise invoke args w).event.mHandlers.find k = none := by
  cases hr : (s.rise invoke args w).raised with
  | none =>
    rw [rise_event_of_none invoke s args w hr]
    show (removeOneShot s.mHandlers s.mOneShotHandlerIDs).find k = none
    rw [find_removeOneShot, hk]
    simp
  | some e => rw [rise_event_of_some invoke s args w e hr]; exact hk

end Event

/-! ## Facts about sequences of operations -/

/-- The handler ID `0` is never registered along a run. -/
theorem step_find_zero (invoke : H → A → W → W × Option E) (g : Nat → Int) (fuel : Nat)
    (c c' : Config H W) (op : Op H A) (hstep : step invoke g fuel c op = some c')
    (hc : c.event.mHandlers.find 0 = none) : c'.event.mHandlers.find 0 = none := by
  cases op with
  | subscribe handler oneShot =>
    simp only [step] at hstep
    cases hsub : c.event.subscribe g fuel c.pos handler oneShot with
    | none => simp [hsub] at hstep
    | some r =>
      obtain ⟨id, s', pos'⟩ := r
      simp only [hsub, Option.some.injEq] at hstep
      obtain ⟨hgen, hs'⟩ := Event.subscribe_eq_some g fuel c.event c.pos handler oneShot id s' pos' hsub
      obtain ⟨hne, hfresh⟩ := Event.generateHandlerID_spec g c.event fuel c.pos id pos' hgen
      rw [← hstep, hs']
      show (c.event.mHandlers.insert id handler).find 0 = none
      rw [Handlers_t.find_insert _ _ _ hfresh, if_neg (fun h => hne h.symm)]
      exact hc
  | unsubscribe handlerID =>
    simp only [step, Option.some.injEq] at hstep
    rw [← hstep]
    show (c.event.mHandlers.erase handlerID).find 0 = none
    rw [Handlers_t.find_erase, hc]
    simp
  | rise args =>
    simp only [step, Option.some.injEq] at hstep
    rw [← hstep]
    exact Event.rise_find_none invoke c.event args c.world 0 hc

theorem run_find_zero (invoke : H → A → W → W × Option E) (g : Nat → Int) (fuel : Nat)
    (ops : List (Op H A)) (c c' : Config H W) (hrun : run invoke g fuel c ops = some c')
    (hc : c.event.mHandlers.find 0 = none) : c'.event.mHandlers.find 0 = none := by
  induction ops generalizing c with
  | nil =>
    simp only [run, Option.some.injEq] at hrun
    rw [← hrun]; exact hc
  | cons op rest ih =>
    simp only [run] at hrun
    cases hst : step invoke g fuel c op with
    | none => simp [hst] at hrun
    | some c1 =>
      simp only [hst] at hrun
      exact ih c1 hrun (step_find_zero invoke g fuel c c1 op hst hc)

/-- In a list with strictly ascending keys, an element stands before another one exactly when
both are in the list and its key is the smaller one. -/
theorem pair_sublist_iff_of_pairwise {α : Type} (key : α → Int) (l : List α)
    (hl : l.Pairwise (fun a b => key a < key b)) (a b : α) :
    [a, b].Sublist l ↔ a ∈ l ∧ b ∈ l ∧ key a < key b := by
  constructor
  · intro hsub
    have hab := hl.sublist hsub
    simp only [List.pairwise_cons, List.mem_singleton, forall_eq, List.not_mem_nil,
      false_implies, implies_true, List.Pairwise.nil, and_self, and_true] at hab
    exact ⟨hsub.subset (by simp), hsub.subset (by simp), hab⟩
  · rintro ⟨ha, hb, hab⟩
    induction l with
    | nil => simp at ha
    | cons x rest ih =>
      rw [List.pairwise_cons] at hl
      rcases List.mem_cons.1 ha with rfl | ha'
      · rcases List.mem_cons.1 hb with rfl | hb'
        · omega
        · exact (List.singleton_sublist.2 hb').cons₂ _
      · rcases List.mem_cons.1 hb with rfl | hb'
        · have := hl.1 a ha'
          omega
        · exact (ih hl.2 ha' hb').cons _

/-! ## The claims -/

/-- C2 (as amended): dispatch order is ascending handler-ID order, whatever the order of
subscription. On every channel, a call `c1` of `rise` is made before a call `c2` exactly when
`rise` makes both and the handler ID of `c1` is less than that of `c2`. -/
theorem rise_order_is_ascending_id (invoke : H → A → W → W × Option E) (s : Event H)
    (args : A) (w : W) (c1 c2 : Int × H × A) :
    [c1, c2].Sublist (s.rise invoke args w).calls
      ↔ c1 ∈ (s.rise invoke args w).calls ∧ c2 ∈ (s.rise invoke args w).calls ∧ c1.1 < c2.1 := by
  apply pair_sublist_iff_of_pairwise (fun c : Int × H × A => c.1)
  have hsub := Event.rise_calls_sublist invoke s args w
  refine List.Pairwise.sublist hsub ?_
  rw [List.pairwise_map]
  exact s.mHandlers.ordered

/-- C2, counterexample to the claim as stated: from the empty channel, with `rand()` giving
`5` and then `3`, handler `print 1` is subscribed first (ID `5`) and `print 2` second
(ID `3`); both stay registered, and `rise` calls `print 2` before `print 1`. -/
theorem rise_order_not_subscription_order :
    (Event.empty : Event DemoHandler).subscribe (randOf [5, 3]) 1 0 (DemoHandler.print 1) false
        = some (5, ⟨⟨[(5, DemoHandler.print 1)], by decide⟩, []⟩, 1)
    ∧ (Event.mk ⟨[(5, DemoHandler.print 1)], by decide⟩ []).subscribe (randOf [5, 3]) 1 1
          (DemoHandler.print 2) false
        = some (3, ⟨⟨[(3, DemoHandler.print 2), (5, DemoHandler.print 1)], by decide⟩, []⟩, 2)
    ∧ ((Event.mk ⟨[(3, DemoHandler.print 2), (5, DemoHandler.print 1)], by decide⟩ []).rise
          demoInvoke 7 []).calls
        = [(3, DemoHandler.print 2, 7), (5, DemoHandler.print 1, 7)]
    ∧ ((Event.mk ⟨[(3, DemoHandler.print 2), (5, DemoHandler.print 1)], by decide⟩ []).rise
          demoInvoke 7 []).raised = none := by
  decide

/-- C3: whenever `subscribe` returns, the handler ID it returns is nonzero and is not the ID
of a handler registered before the call; and in every state reached from the empty channel
by `subscribe`, `unsubscribe` and `rise`, the IDs of the registered handlers are pairwise
distinct and nonzero. -/
theorem subscribe_id_nonzero_fresh :
    (∀ (g : Nat → Int) (fuel : Nat) (s : Event H) (pos : Nat) (h : H) (o : Bool) (id : Int)
        (s' : Event H) (pos' : Nat), s.subscribe g fuel pos h o = some (id, s', pos') →
        id ≠ 0 ∧ id ∉ s.mHandlers.keys)
    ∧ (∀ (invoke : H → A → W → W × Option E) (g : Nat → Int) (fuel : Nat) (pos : Nat) (w : W)
        (ops : List (Op H A)) (c : Config H W),
        run invoke g fuel ⟨Event.empty, pos, w⟩ ops = some c →
        c.event.mHandlers.keys.Nodup ∧ ∀ k ∈ c.event.mHandlers.keys, k ≠ 0) := by
  constructor
  · intro g fuel s pos h o id s' pos' hs
    obtain ⟨hgen, _⟩ := Event.subscribe_eq_some g fuel s pos h o id s' pos' hs
    obtain ⟨hne, hfresh⟩ := Event.generateHandlerID_spec g s fuel pos id pos' hgen
    exact ⟨hne, (s.mHandlers.find_eq_none_iff id).1 hfresh⟩
  · intro invoke g fuel pos w ops c hrun
    refine ⟨c.event.mHandlers.keys_nodup, ?_⟩
    have h0 := run_find_zero invoke g fuel ops _ c hrun rfl
    rw [Handlers_t.find_eq_none_iff] at h0
    intro k hk hk0
    exact h0 (hk0 ▸ hk)

/-- C3, witness: `subscribe` on a channel holding ID `5` with `rand()` giving `0, 5, 3`
returns `3`; and the state reached by two `subscribe` calls, a `rise` and an `unsubscribe`. -/
theorem subscribe_id_nonzero_fresh_witness :
    ((3 : Int) ≠ 0
      ∧ (3 : Int) ∉ (Event.mk ⟨[(5, DemoHandler.print 1)], by decide⟩ []).mHandlers.keys)
    ∧ ((Event.mk ⟨[(3, DemoHandler.print 2)], by decide⟩ []).mHandlers.keys.Nodup
      ∧ ∀ k ∈ (Event.mk ⟨[(3, DemoHandler.print 2)], by decide⟩ []).mHandlers.keys, k ≠ 0) :=
  ⟨(subscribe_id_nonzero_fresh (A := Int) (W := List (Nat × Int)) (E := Unit)).1
      (randOf [0, 5, 3]) 3 (Event.mk ⟨[(5, DemoHandler.print 1)], by decide⟩ []) 0
      (DemoHandler.print 2) false 3
      ⟨⟨[(3, DemoHandler.print 2), (5, DemoHandler.print 1)], by decide⟩, []⟩ 3 (by decide),
    (subscribe_id_nonzero_fresh (H := DemoHandler)).2 demoInvoke (randOf [5, 3]) 1 0 []
      [Op.subscribe (DemoHandler.print 1) false, Op.subscribe (DemoHandler.print 2) false,
        Op.rise 7, Op.unsubscribe 5]
      ⟨⟨⟨[(3, DemoHandler.print 2)], by decide⟩, []⟩, 2, [(2, 7), (1, 7)]⟩ (by decide)⟩

/-- C4: when `subscribe(h, oneShot)` returns `id`, the new registry is the old one plus
exactly the entry `(id, h)`: its entries are those of the old registry and `(id, h)`, every
other ID maps to what it mapped to before, the size grows by one; and the one-shot list is the
old one with `id` appended when `oneShot` is true and is unchanged when it is false. -/
theorem subscribe_postcondition (g : Nat → Int) (fuel : Nat) (s : Event H) (pos : Nat) (h : H)
    (o : Bool) (id : Int) (s' : Event H) (pos' : Nat)
    (hs : s.subscribe g fuel pos h o = some (id, s', pos')) :
    s'.mHandlers.entries.Perm ((id, h) :: s.mHandlers.entries)
    ∧ (∀ k, s'.mHandlers.find k = if k = id then some h else s.mHandlers.find k)
    ∧ s'.mHandlers.entries.length = s.mHandlers.entries.length + 1
    ∧ (o = true → s'.mOneShotHandlerIDs = s.mOneShotHandlerIDs ++ [id])
    ∧ (o = false → s'.mOneShotHandlerIDs = s.mOneShotHandlerIDs) := by
  obtain ⟨hgen, hs'⟩ := Event.subscribe_eq_some g fuel s pos h o id s' pos' hs
  obtain ⟨_, hfresh⟩ := Event.generateHandlerID_spec g s fuel pos id pos' hgen
  have hperm : s'.mHandlers.entries.Perm ((id, h) :: s.mHandlers.entries) := by
    rw [hs']
    exact insertEntry_perm s.mHandlers.entries id h ((s.mHandlers.find_eq_none_iff id).1 hfresh)
  refine ⟨hperm, ?_, ?_, ?_, ?_⟩
  · intro k
    rw [hs']
    exact Handlers_t.find_insert s.mHandlers id h hfresh k
  · rw [hperm.length_eq, List.length_cons]
  · intro ho; rw [hs', ho]; rfl
  · intro ho; rw [hs', ho]; rfl

/-- C4, witness: a one-shot `subscribe` on a channel holding ID `5`, with `rand()` giving
`0, 5, 3`, returns `3`. -/
theorem subscribe_postcondition_witness :
    (Event.mk ⟨[(5, DemoHandler.print 1)], by decide⟩ [9]).subscribe (randOf [0, 5, 3]) 3 0
        (DemoHandler.print 2) true
      = some (3, ⟨⟨[(3, DemoHandler.print 2), (5, DemoHandler.print 1)], by decide⟩, [9, 3]⟩, 3)
    ∧ ([(3, DemoHandler.print 2), (5, DemoHandler.print 1)] : List (Int × DemoHandler)).Perm
        ((3, DemoHandler.print 2) :: [(5, DemoHandler.print 1)])
    ∧ ([9, 3] : List Int) = [9] ++ [3] := by
  have h := subscribe_postcondition (randOf [0, 5, 3]) 3
    (Event.mk ⟨[(5, DemoHandler.print 1)], by decide⟩ [9]) 0 (DemoHandler.print 2) true 3
    ⟨⟨[(3, DemoHandler.print 2), (5, DemoHandler.print 1)], by decide⟩, [9, 3]⟩ 3 (by decide)
  exact ⟨by decide, h.1, h.2.2.2.1 rfl⟩

/-! ### Claims C5 and C6 -/

/-- Every call that `rise` makes is the call of a registered entry, with the arguments of
`rise`. -/
theorem Event.rise_call_registered (invoke : H → A → W → W × Option E) (s : Event H) (args : A)
    (w : W) (call : Int × H × A) (hc : call ∈ (s.rise invoke args w).calls) :
    s.mHandlers.find call.1 = some call.2.1 ∧ call.2.2 = args := by
  have hm := (Event.rise_calls_sublist invoke s args w).subset hc
  obtain ⟨e, he, hce⟩ := List.mem_map.1 hm
  rw [← hce]
  exact ⟨(s.mHandlers.find_eq_some_iff e.1 e.2).2 he, rfl⟩

/-- A run without `subscribe` never runs out of fuel and registers no new ID. -/
theorem run_without_subscribe (invoke : H → A → W → W × Option E) (g : Nat → Int)
    (fuel : Nat) (id : Int) (ops : List (Op H A)) (hops : ∀ op ∈ ops, op.isSubscribe = false)
    (c : Config H W) (hc : c.event.mHandlers.find id = none) :
    ∃ c', run invoke g fuel c ops = some c' ∧ c'.event.mHandlers.find id = none := by
  induction ops generalizing c with
  | nil => exact ⟨c, rfl, hc⟩
  | cons op rest ih =>
    have hrest : ∀ op ∈ rest, op.isSubscribe = false :=
      fun o ho => hops o (List.mem_cons_of_mem _ ho)
    cases op with
    | subscribe handler oneShot =>
      have := hops _ (List.mem_cons_self _ _)
      simp [Op.isSubscribe] at this
    | unsubscribe handlerID =>
      simp only [run, step]
      apply ih hrest
      show (c.event.mHandlers.erase handlerID).find id = none
      rw [Handlers_t.find_erase, hc]
      simp
    | rise args =>
      simp only [run, step]
      apply ih hrest
      exact Event.rise_find_none invoke c.event args c.world id hc

/-- In entries with strictly ascending keys, the entries under a registered key are that one
entry. -/
theorem filter_key_of_pairwise (l : List (Int × H)) (hl : l.Pairwise keyLt) (k : Int) (h : H)
    (hm : (k, h) ∈ l) : l.filter (fun e => decide (e.1 = k)) = [(k, h)] := by
  induction l with
  | nil => simp at hm
  | cons x rest ih =>
    rw [List.pairwise_cons] at hl
    rcases List.mem_cons.1 hm with hx | hm'
    · subst hx
      rw [List.filter_cons_of_pos (by simp)]
      congr 1
      rw [List.filter_eq_nil_iff]
      intro e he
      have := hl.1 e he
      unfold keyLt at this
      simp only [decide_eq_true_eq]
      omega
    · have := hl.1 _ hm'
      unfold keyLt at this
      rw [List.filter_cons_of_neg (by simp only [decide_eq_true_eq]; omega)]
      exact ih hl.2 hm'

/-- C5: after `unsubscribe(id)` the registry has no entry for `id`; every run of `unsubscribe`
and `rise` calls that follows (no `subscribe`) goes through and leaves `id` unregistered, and
no `rise` after it makes a call under `id`; in particular, after `subscribe` of one handler on
the empty channel and `unsubscribe` of its ID, `rise` calls no handler. -/
theorem unsubscribe_then_never_called (invoke : H → A → W → W × Option E) (g : Nat → Int)
    (fuel : Nat) :
    (∀ (s : Event H) (id : Int), (s.unsubscribe id).mHandlers.find id = none)
    ∧ (∀ (s : Event H) (id : Int) (pos : Nat) (w : W) (ops : List (Op H A)),
        (∀ op ∈ ops, op.isSubscribe = false) →
        ∃ c, run invoke g fuel ⟨s.unsubscribe id, pos, w⟩ ops = some c
          ∧ c.event.mHandlers.find id = none
          ∧ ∀ (args : A) (w' : W), ∀ call ∈ (c.event.rise invoke args w').calls, call.1 ≠ id)
    ∧ (∀ (h : H) (o : Bool) (pos : Nat) (id : Int) (s1 : Event H) (pos1 : Nat) (args : A)
        (w : W), (Event.empty : Event H).subscribe g fuel pos h o = some (id, s1, pos1) →
        ((s1.unsubscribe id).rise invoke args w).calls = []) := by
  have hun : ∀ (s : Event H) (id : Int), (s.unsubscribe id).mHandlers.find id = none := by
    intro s id
    show (s.mHandlers.erase id).find id = none
    rw [Handlers_t.find_erase]
    simp
  refine ⟨hun, ?_, ?_⟩
  · intro s id pos w ops hops
    obtain ⟨c, hrun, hc⟩ :=
      run_without_subscribe invoke g fuel id ops hops ⟨s.unsubscribe id, pos, w⟩ (hun s id)
    refine ⟨c, hrun, hc, ?_⟩
    intro args w' call hcall hid
    have := (Event.rise_call_registered invoke c.event args w' call hcall).1
    rw [hid, hc] at this
    cases this
  · intro h o pos id s1 pos1 args w hs
    obtain ⟨_, hs1⟩ := Event.subscribe_eq_some g fuel _ pos h o id s1 pos1 hs
    have hent : (s1.unsubscribe id).mHandlers.entries = [] := by
      rw [hs1]
      show eraseEntry (insertEntry [] id h) id = []
      simp [insertEntry, eraseEntry]
    have hsub := Event.rise_calls_sublist invoke (s1.unsubscribe id) args w
    rw [hent] at hsub
    simpa using hsub

/-- C5, witness: `unsubscribe(5)` on a channel with IDs `3` and `5`, followed by a `rise`
and another `unsubscribe`; and `subscribe`, `unsubscribe`, `rise` on the empty channel. -/
theorem unsubscribe_then_never_called_witness :
    (∃ c, run demoInvoke (randOf [5]) 1
        ⟨(Event.mk ⟨[(3, DemoHandler.print 2), (5, DemoHandler.print 1)], by decide⟩
          []).unsubscribe 5, 0, []⟩ [Op.rise 7, Op.unsubscribe 5] = some c
      ∧ c.event.mHandlers.find 5 = none
      ∧ ∀ (args : Int) (w' : List (Nat × Int)),
          ∀ call ∈ (c.event.rise demoInvoke args w').calls, call.1 ≠ 5)
    ∧ (((Event.mk ⟨[(5, DemoHandler.print 1)], by decide⟩ []).unsubscribe 5).rise
        demoInvoke 7 []).calls = [] :=
  ⟨(unsubscribe_then_never_called demoInvoke (randOf [5]) 1).2.1 _ 5 0 []
      [Op.rise 7, Op.unsubscribe 5] (by decide),
    (unsubscribe_then_never_called demoInvoke (randOf [5]) 1).2.2 (DemoHandler.print 1) false 0
      5 (Event.mk ⟨[(5, DemoHandler.print 1)], by decide⟩ []) 1 7 [] (by decide)⟩

/-- After a `rise` that returns normally, an ID outside the one-shot list maps to what it
mapped to before. -/
theorem Event.rise_find_of_not_one_shot (invoke : H → A → W → W × Option E) (s : Event H)
    (args : A) (w : W) (k : Int) (hk : k ∉ s.mOneShotHandlerIDs) :
    (s.rise invoke args w).event.mHandlers.find k = s.mHandlers.find k := by
  cases hr : (s.rise invoke args w).raised with
  | none =>
    rw [Event.rise_event_of_none invoke s args w hr]
    show (Event.removeOneShot s.mHandlers s.mOneShotHandlerIDs).find k = _
    rw [Event.find_removeOneShot, if_neg hk]
  | some e => rw [Event.rise_event_of_some invoke s args w e hr]

/-- A `rise` that returns normally calls every registered entry. -/
theorem Event.rise_calls_mem_of_none (invoke : H → A → W → W × Option E) (s : Event H)
    (args : A) (w : W) (hret : (s.rise invoke args w).raised = none) (k : Int) (h : H)
    (hk : s.mHandlers.find k = some h) : (k, h, args) ∈ (s.rise invoke args w).calls := by
  rw [Event.rise_calls_of_none invoke s args w hret]
  exact List.mem_map.2 ⟨(k, h), (s.mHandlers.find_eq_some_iff k h).1 hk, rfl⟩

theorem Event.rise_one_shot_subset (invoke : H → A → W → W × Option E) (s : Event H)
    (args : A) (w : W) (k : Int) (hk : k ∉ s.mOneShotHandlerIDs) :
    k ∉ (s.rise invoke args w).event.mOneShotHandlerIDs := by
  cases hr : (s.rise invoke args w).raised with
  | none =>
    rw [Event.rise_event_of_none invoke s args w hr]
    show k ∉ ([] : List Int)
    simp
  | some e => rw [Event.rise_event_of_some invoke s args w e hr]; exact hk

/-- A call other than `unsubscribe(id)` keeps the entry of `id`, and keeps `id` out of the
one-shot list when it was out of it. -/
theorem step_keeps_registered (invoke : H → A → W → W × Option E) (g : Nat → Int) (fuel : Nat)
    (id : Int) (h : H) (c c' : Config H W) (op : Op H A) (hop : op ≠ Op.unsubscribe id)
    (hstep : step invoke g fuel c op = some c')
    (hc : c.event.mHandlers.find id = some h ∧ id ∉ c.event.mOneShotHandlerIDs) :
    c'.event.mHandlers.find id = some h ∧ id ∉ c'.event.mOneShotHandlerIDs := by
  cases op with
  | subscribe handler oneShot =>
    simp only [step] at hstep
    cases hsub : c.event.subscribe g fuel c.pos handler oneShot with
    | none => simp [hsub] at hstep
    | some r =>
      obtain ⟨id', s', pos'⟩ := r
      simp only [hsub, Option.some.injEq] at hstep
      obtain ⟨hgen, hs'⟩ :=
        Event.subscribe_eq_some g fuel c.event c.pos handler oneShot id' s' pos' hsub
      obtain ⟨_, hfresh⟩ := Event.generateHandlerID_spec g c.event fuel c.pos id' pos' hgen
      have hne : id ≠ id' := by
        intro e
        rw [← e, hc.1] at hfresh
        cases hfresh
      rw [← hstep, hs']
      constructor
      · show (c.event.mHandlers.insert id' handler).find id = some h
        rw [Handlers_t.find_insert _ _ _ hfresh, if_neg hne]
        exact hc.1
      · show id ∉ (if oneShot = true then c.event.mOneShotHandlerIDs ++ [id']
          else c.event.mOneShotHandlerIDs)
        split_ifs
        · simp [hc.2, hne]
        · exact hc.2
  | unsubscribe handlerID =>
    simp only [step, Option.some.injEq] at hstep
    have hne : id ≠ handlerID := fun e => hop (by rw [e])
    rw [← hstep]
    constructor
    · show (c.event.mHandlers.erase handlerID).find id = some h
      rw [Handlers_t.find_erase, if_neg hne]
      exact hc.1
    · exact hc.2
  | rise args =>
    simp only [step, Option.some.injEq] at hstep
    rw [← hstep]
    constructor
    · show (c.event.rise invoke args c.world).event.mHandlers.find id = some h
      rw [Event.rise_find_of_not_one_shot invoke c.event args c.world id hc.2]
      exact hc.1
    · exact Event.rise_one_shot_subset invoke c.event args c.world id hc.2

theorem run_keeps_registered (invoke : H → A → W → W × Option E) (g : Nat → Int) (fuel : Nat)
    (id : Int) (h : H) (ops : List (Op H A)) (hops : ∀ op ∈ ops, op ≠ Op.unsubscribe id)
    (c c' : Config H W) (hrun : run invoke g fuel c ops = some c')
    (hc : c.event.mHandlers.find id = some h ∧ id ∉ c.event.mOneShotHandlerIDs) :
    c'.event.mHandlers.find id = some h ∧ id ∉ c'.event.mOneShotHandlerIDs := by
  induction ops generalizing c with
  | nil =>
    simp only [run, Option.some.injEq] at hrun
    rw [← hrun]; exact hc
  | cons op rest ih =>
    simp only [run] at hrun
    cases hst : step invoke g fuel c op with
    | none => simp [hst] at hrun
    | some c1 =>
      simp only [hst] at hrun
      exact ih (fun o ho => hops o (List.mem_cons_of_mem _ ho)) c1 hrun
        (step_keeps_registered invoke g fuel id h c c1 op (hops op (List.mem_cons_self _ _))
          hst hc)

/-- C7 (as amended): if `subscribe(h, false)` returned `id`, `id` was not in the one-shot list
at that moment, and `unsubscribe(id)` has not been called since, then after every sequence of
`subscribe`, `unsubscribe` and `rise` calls `id` is still registered with `h`, it is still
registered with `h` after every further `rise`, and every further `rise` that returns normally
(no handler throws) calls `h` under `id`. -/
theorem non_one_shot_stays_registered (invoke : H → A → W → W × Option E) (g : Nat → Int)
    (fuel : Nat) (s : Event H) (pos : Nat) (h : H) (id : Int) (s1 : Event H) (pos1 : Nat)
    (hs : s.subscribe g fuel pos h false = some (id, s1, pos1))
    (hnew : id ∉ s.mOneShotHandlerIDs) (w : W) (ops : List (Op H A))
    (hops : ∀ op ∈ ops, op ≠ Op.unsubscribe id) (c : Config H W)
    (hrun : run invoke g fuel ⟨s1, pos1, w⟩ ops = some c) :
    c.event.mHandlers.find id = some h
    ∧ ∀ (args : A) (w' : W),
        (c.event.rise invoke args w').event.mHandlers.find id = some h
        ∧ ((c.event.rise invoke args w').raised = none →
            (id, h, args) ∈ (c.event.rise invoke args w').calls) := by
  obtain ⟨hgen, hs1⟩ := Event.subscribe_eq_some g fuel s pos h false id s1 pos1 hs
  obtain ⟨_, hfresh⟩ := Event.generateHandlerID_spec g s fuel pos id pos1 hgen
  have h1 : s1.mHandlers.find id = some h ∧ id ∉ s1.mOneShotHandlerIDs := by
    rw [hs1]
    constructor
    · show (s.mHandlers.insert id h).find id = some h
      rw [Handlers_t.find_insert _ _ _ hfresh, if_pos rfl]
    · exact hnew
  have hc := run_keeps_registered invoke g fuel id h ops hops ⟨s1, pos1, w⟩ c hrun h1
  refine ⟨hc.1, ?_⟩
  intro args w'
  constructor
  · rw [Event.rise_find_of_not_one_shot invoke c.event args w' id hc.2]
    exact hc.1
  · intro hret
    exact Event.rise_calls_mem_of_none invoke c.event args w' hret id h hc.1

/-- C7, witness: `print 1` subscribed under ID `5` on the empty channel, then a one-shot
`subscribe`, a `rise` and an `unsubscribe` of another ID. -/
theorem non_one_shot_stays_registered_witness :
    (Event.mk ⟨[(5, DemoHandler.print 1)], by decide⟩ []).mHandlers.find 5
        = some (DemoHandler.print 1)
    ∧ ∀ (args : Int) (w' : List (Nat × Int)),
        ((Event.mk ⟨[(5, DemoHandler.print 1)], by decide⟩ []).rise demoInvoke args
            w').event.mHandlers.find 5 = some (DemoHandler.print 1)
        ∧ (((Event.mk ⟨[(5, DemoHandler.print 1)], by decide⟩ []).rise demoInvoke args
            w').raised = none →
          (5, DemoHandler.print 1, args)
            ∈ ((Event.mk ⟨[(5, DemoHandler.print 1)], by decide⟩ []).rise demoInvoke args
                w').calls) :=
  non_one_shot_stays_registered demoInvoke (randOf [5, 3]) 1 Event.empty 0
    (DemoHandler.print 1) 5 (Event.mk ⟨[(5, DemoHandler.print 1)], by decide⟩ []) 1
    (by decide) (by decide) []
    [Op.subscribe (DemoHandler.print 2) true, Op.rise 7, Op.unsubscribe 3]
    (by decide) ⟨Event.mk ⟨[(5, DemoHandler.print 1)], by decide⟩ [], 2, [(2, 7), (1, 7)]⟩
    (by decide)

/-- C7, counterexample to the claim as stated: from the empty channel, with `rand()` giving
`3` and then `5`, `printThrow 1` is subscribed under ID `3` and `print 2` under ID `5`, both
with `oneShot = false`, and nothing is unsubscribed. The next `rise` calls `printThrow 1`,
which throws, and does not call `print 2`. -/
theorem non_one_shot_skipped_after_throw :
    run demoInvoke (randOf [3, 5]) 1 ⟨(Event.empty : Event DemoHandler), 0, []⟩
        [Op.subscribe (DemoHandler.printThrow 1) false, Op.subscribe (DemoHandler.print 2) false]
      = some ⟨⟨⟨[(3, DemoHandler.printThrow 1), (5, DemoHandler.print 2)], by decide⟩, []⟩, 2, []⟩
    ∧ (Event.mk ⟨[(3, DemoHandler.printThrow 1), (5, DemoHandler.print 2)], by decide⟩
        []).mHandlers.find 5 = some (DemoHandler.print 2)
    ∧ ((Event.mk ⟨[(3, DemoHandler.printThrow 1), (5, DemoHandler.print 2)], by decide⟩
        []).rise demoInvoke 7 []).calls = [(3, DemoHandler.printThrow 1, 7)]
    ∧ (5, DemoHandler.print 2, 7)
        ∉ ((Event.mk ⟨[(3, DemoHandler.printThrow 1), (5, DemoHandler.print 2)], by decide⟩
            []).rise demoInvoke 7 []).calls := by
  decide

/-- C8, the code at the failing input: from the empty channel, with `rand()` giving `5` and
then `5` again, `subscribe(print 1, oneShot = true)` returns `5` and `unsubscribe(5)` follows.
The one-shot list still holds `5`, which is no longer registered. `subscribe(print 2, false)`
then draws `5` again, and the next `rise` calls `print 2` and erases it, although it was
subscribed without the one-shot flag and never unsubscribed. -/
theorem one_shot_id_outlives_unsubscribe :
    run demoInvoke (randOf [5, 5]) 1 ⟨(Event.empty : Event DemoHandler), 0, []⟩
        [Op.subscribe (DemoHandler.print 1) true, Op.unsubscribe 5]
      = some ⟨⟨⟨[], by decide⟩, [5]⟩, 1, []⟩
    ∧ (Event.mk (⟨[], by decide⟩ : Handlers_t DemoHandler) [5]).mHandlers.find 5 = none
    ∧ run demoInvoke (randOf [5, 5]) 1 ⟨(Event.empty : Event DemoHandler), 0, []⟩
        [Op.subscribe (DemoHandler.print 1) true, Op.unsubscribe 5,
          Op.subscribe (DemoHandler.print 2) false]
      = some ⟨⟨⟨[(5, DemoHandler.print 2)], by decide⟩, [5]⟩, 2, []⟩
    ∧ run demoInvoke (randOf [5, 5]) 1 ⟨(Event.empty : Event DemoHandler), 0, []⟩
        [Op.subscribe (DemoHandler.print 1) true, Op.unsubscribe 5,
          Op.subscribe (DemoHandler.print 2) false, Op.rise 7]
      = some ⟨⟨⟨[], by decide⟩, []⟩, 2, [(2, 7)]⟩ := by
  decide

/-! ### Claims C9 and C10 -/

/-- C9: when `rise` returns normally (no handler throws), the one-shot list is empty
afterwards and the registry is exactly the previous registry without the entries whose ID was
in the one-shot list: the other entries are unchanged, in the same order; so a `rise` on a
channel with an empty one-shot list leaves the channel unchanged. -/
theorem rise_postcondition (invoke : H → A → W → W × Option E) (s : Event H) (args : A)
    (w : W) (hret : (s.rise invoke args w).raised = none) :
    (s.rise invoke args w).event.mOneShotHandlerIDs = []
    ∧ (s.rise invoke args w).event.mHandlers.entries
        = s.mHandlers.entries.filter (fun e => decide (e.1 ∉ s.mOneShotHandlerIDs))
    ∧ (∀ k ∈ s.mOneShotHandlerIDs, (s.rise invoke args w).event.mHandlers.find k = none)
    ∧ (∀ k, k ∉ s.mOneShotHandlerIDs →
        (s.rise invoke args w).event.mHandlers.find k = s.mHandlers.find k)
    ∧ (s.mOneShotHandlerIDs = [] → (s.rise invoke args w).event = s) := by
  have hev := Event.rise_event_of_none invoke s args w hret
  refine ⟨by rw [hev], ?_, ?_, ?_, ?_⟩
  · rw [hev]
    exact Event.entries_removeOneShot s.mHandlers s.mOneShotHandlerIDs
  · intro k hk
    rw [hev]
    show (Event.removeOneShot s.mHandlers s.mOneShotHandlerIDs).find k = none
    rw [Event.find_removeOneShot, if_pos hk]
  · intro k hk
    exact Event.rise_find_of_not_one_shot invoke s args w k hk
  · intro hnil
    rw [hev, hnil]
    cases s with
    | mk m l =>
      simp only at hnil
      rw [hnil]
      rfl

/-- C9, witness: a channel with the IDs `3`, `5` and `8`, of which `5` is one-shot; the
one-shot list also holds `4`, which is not registered. -/
theorem rise_postcondition_witness :
    ((Event.mk ⟨[(3, DemoHandler.print 1), (5, DemoHandler.print 2), (8, DemoHandler.print 3)],
        by decide⟩ [5, 4]).rise demoInvoke 7 []).raised = none
    ∧ ((Event.mk ⟨[(3, DemoHandler.print 1), (5, DemoHandler.print 2), (8, DemoHandler.print 3)],
        by decide⟩ [5, 4]).rise demoInvoke 7 []).event.mOneShotHandlerIDs = []
    ∧ ((Event.mk ⟨[(3, DemoHandler.print 1), (5, DemoHandler.print 2), (8, DemoHandler.print 3)],
        by decide⟩ [5, 4]).rise demoInvoke 7 []).event.mHandlers.entries
      = ([(3, DemoHandler.print 1), (5, DemoHandler.print 2), (8, DemoHandler.print 3)] :
          List (Int × DemoHandler)).filter (fun e => decide (e.1 ∉ ([5, 4] : List Int))) := by
  have h := rise_postcondition demoInvoke
    (Event.mk ⟨[(3, DemoHandler.print 1), (5, DemoHandler.print 2), (8, DemoHandler.print 3)],
      by decide⟩ [5, 4]) 7 [] (by decide)
  exact ⟨by decide, h.1, h.2.1⟩

/-- C10: `unsubscribe` with an ID that is not registered leaves the channel, registry and
one-shot list, as it was; `unsubscribe` is a total function, it cannot fail; and
`unsubscribe(id)` applied twice gives the same channel as applied once. -/
theorem unsubscribe_unknown_is_noop (s : Event H) (id : Int) :
    (s.mHandlers.find id = none → s.unsubscribe id = s)
    ∧ (s.unsubscribe id).unsubscribe id = s.unsubscribe id := by
  have hnoop : ∀ t : Event H, t.mHandlers.find id = none → t.unsubscribe id = t := by
    intro t ht
    cases t with
    | mk m l =>
      show Event.mk (m.erase id) l = Event.mk m l
      rw [Handlers_t.erase_of_find_none m id ht]
  refine ⟨hnoop s, hnoop _ ?_⟩
  show (s.mHandlers.erase id).find id = none
  rw [Handlers_t.find_erase, if_pos rfl]

/-- C10, witness: `unsubscribe(4)` on a channel with the IDs `3` and `5`. -/
theorem unsubscribe_unknown_is_noop_witness :
    (Event.mk ⟨[(3, DemoHandler.print 1), (5, DemoHandler.print 2)], by decide⟩ [5]).unsubscribe 4
      = Event.mk ⟨[(3, DemoHandler.print 1), (5, DemoHandler.print 2)], by decide⟩ [5] :=
  (unsubscribe_unknown_is_noop
    (Event.mk ⟨[(3, DemoHandler.print 1), (5, DemoHandler.print 2)], by decide⟩ [5]) 4).1
    (by decide)

/-! ### Claims C11 and C12 -/

/-- What `subscribe` does to the entries when it returns: the ID was not registered, and the
new entries are the old ones and the new pair. -/
theorem Event.subscribe_entries (g : Nat → Int) (fuel : Nat) (s : Event H) (pos : Nat) (h : H)
    (o : Bool) (id : Int) (s' : Event H) (pos' : Nat)
    (hs : s.subscribe g fuel pos h o = some (id, s', pos')) :
    s.mHandlers.find id = none ∧ s'.mHandlers.find id = some h
      ∧ s'.mHandlers.entries.Perm ((id, h) :: s.mHandlers.entries) := by
  obtain ⟨hgen, hs'⟩ := Event.subscribe_eq_some g fuel s pos h o id s' pos' hs
  obtain ⟨_, hfresh⟩ := Event.generateHandlerID_spec g s fuel pos id pos' hgen
  refine ⟨hfresh, ?_, ?_⟩
  · rw [hs']
    show (s.mHandlers.insert id h).find id = some h
    rw [Handlers_t.find_insert _ _ _ hfresh, if_pos rfl]
  · rw [hs']
    exact insertEntry_perm s.mHandlers.entries id h ((s.mHandlers.find_eq_none_iff id).1 hfresh)

/-- C12 (as amended): `subscribe(h, false)` returns `id1`; after calls that are no
`unsubscribe`, `subscribe(h, false)` returns `id2`; neither ID was in the one-shot list when
it was returned. Then the two IDs differ and both are registered with `h`, and after every
further sequence of calls that unsubscribes neither of them, every `rise` that returns
normally (no handler throws) makes exactly one call under each of the two IDs, a call of `h`:
it calls `h` exactly twice under these IDs. -/
theorem same_callable_twice (invoke : H → A → W → W × Option E) (g : Nat → Int) (fuel : Nat)
    (s : Event H) (pos : Nat) (h : H) (id1 : Int) (s1 : Event H) (pos1 : Nat) (w : W)
    (mid : List (Op H A)) (c1 : Config H W) (id2 : Int) (s2 : Event H) (pos2 : Nat)
    (ops : List (Op H A)) (c : Config H W)
    (hs1 : s.subscribe g fuel pos h false = some (id1, s1, pos1))
    (hnew1 : id1 ∉ s.mOneShotHandlerIDs)
    (hmid : ∀ op ∈ mid, ∀ k, op ≠ Op.unsubscribe k)
    (hrun1 : run invoke g fuel ⟨s1, pos1, w⟩ mid = some c1)
    (hs2 : c1.event.subscribe g fuel c1.pos h false = some (id2, s2, pos2))
    (hnew2 : id2 ∉ c1.event.mOneShotHandlerIDs)
    (hops : ∀ op ∈ ops, op ≠ Op.unsubscribe id1 ∧ op ≠ Op.unsubscribe id2)
    (hrun : run invoke g fuel ⟨s2, pos2, c1.world⟩ ops = some c) :
    id1 ≠ id2
    ∧ s2.mHandlers.find id1 = some h ∧ s2.mHandlers.find id2 = some h
    ∧ ∀ (args : A) (w' : W), (c.event.rise invoke args w').raised = none →
        (c.event.rise invoke args w').calls.filter (fun x => decide (x.1 = id1))
          = [(id1, h, args)]
        ∧ (c.event.rise invoke args w').calls.filter (fun x => decide (x.1 = id2))
          = [(id2, h, args)] := by
  obtain ⟨_, r1, _⟩ := Event.subscribe_entries g fuel s pos h false id1 s1 pos1 hs1
  obtain ⟨_, e1⟩ := Event.subscribe_eq_some g fuel s pos h false id1 s1 pos1 hs1
  have o1 : id1 ∉ s1.mOneShotHandlerIDs := by rw [e1]; exact hnew1
  have k1 := run_keeps_registered invoke g fuel id1 h mid (fun op hop => hmid op hop id1)
    ⟨s1, pos1, w⟩ c1 hrun1 ⟨r1, o1⟩
  obtain ⟨f2, r2, _⟩ := Event.subscribe_entries g fuel _ _ h false id2 s2 pos2 hs2
  obtain ⟨hg2, e2⟩ := Event.subscribe_eq_some g fuel _ _ h false id2 s2 pos2 hs2
  have hne : id1 ≠ id2 := by
    intro e
    rw [← e, k1.1] at f2
    cases f2
  have r21 : s2.mHandlers.find id1 = some h := by
    rw [e2]
    show (c1.event.mHandlers.insert id2 h).find id1 = some h
    rw [Handlers_t.find_insert _ _ _ f2, if_neg hne]
    exact k1.1
  have o2 : id1 ∉ s2.mOneShotHandlerIDs ∧ id2 ∉ s2.mOneShotHandlerIDs := by
    rw [e2]
    exact ⟨k1.2, hnew2⟩
  have ka := run_keeps_registered invoke g fuel id1 h ops (fun op hop => (hops op hop).1)
    ⟨s2, pos2, c1.world⟩ c hrun ⟨r21, o2.1⟩
  have kb := run_keeps_registered invoke g fuel id2 h ops (fun op hop => (hops op hop).2)
    ⟨s2, pos2, c1.world⟩ c hrun ⟨r2, o2.2⟩
  refine ⟨hne, r21, r2, ?_⟩
  intro args w' hret
  rw [Event.rise_calls_of_none invoke c.event args w' hret, List.filter_map, List.filter_map]
  constructor
  · show List.map _ (List.filter (fun e => decide (e.1 = id1)) c.event.mHandlers.entries) = _
    rw [filter_key_of_pairwise _ c.event.mHandlers.ordered id1 h
      ((c.event.mHandlers.find_eq_some_iff id1 h).1 ka.1)]
    rfl
  · show List.map _ (List.filter (fun e => decide (e.1 = id2)) c.event.mHandlers.entries) = _
    rw [filter_key_of_pairwise _ c.event.mHandlers.ordered id2 h
      ((c.event.mHandlers.find_eq_some_iff id2 h).1 kb.1)]
    rfl

/-- C12, witness: `print 1` subscribed twice on the empty channel, with `rand()` giving `5`,
`3` and `8`; a one-shot `subscribe` of `print 2` and a `rise` follow. -/
theorem same_callable_twice_witness :
    (5 : Int) ≠ 3
    ∧ (Event.mk ⟨[(3, DemoHandler.print 1), (5, DemoHandler.print 1)], by decide⟩
        []).mHandlers.find 5 = some (DemoHandler.print 1)
    ∧ (Event.mk ⟨[(3, DemoHandler.print 1), (5, DemoHandler.print 1)], by decide⟩
        []).mHandlers.find 3 = some (DemoHandler.print 1)
    ∧ ∀ (args : Int) (w' : List (Nat × Int)),
        ((Event.mk ⟨[(3, DemoHandler.print 1), (5, DemoHandler.print 1)], by decide⟩
          []).rise demoInvoke args w').raised = none →
        ((Event.mk ⟨[(3, DemoHandler.print 1), (5, DemoHandler.print 1)], by decide⟩
          []).rise demoInvoke args w').calls.filter (fun x => decide (x.1 = 5))
          = [(5, DemoHandler.print 1, args)]
        ∧ ((Event.mk ⟨[(3, DemoHandler.print 1), (5, DemoHandler.print 1)], by decide⟩
          []).rise demoInvoke args w').calls.filter (fun x => decide (x.1 = 3))
          = [(3, DemoHandler.print 1, args)] :=
  same_callable_twice demoInvoke (randOf [5, 3, 8]) 1 Event.empty 0 (DemoHandler.print 1) 5
    (Event.mk ⟨[(5, DemoHandler.print 1)], by decide⟩ []) 1 [] []
    ⟨Event.mk ⟨[(5, DemoHandler.print 1)], by decide⟩ [], 1, []⟩ 3
    (Event.mk ⟨[(3, DemoHandler.print 1), (5, DemoHandler.print 1)], by decide⟩ []) 2
    [Op.subscribe (DemoHandler.print 2) true, Op.rise 7]
    ⟨Event.mk ⟨[(3, DemoHandler.print 1), (5, DemoHandler.print 1)], by decide⟩ [], 3,
      [(1, 7), (1, 7), (2, 7)]⟩
    (by decide) (by decide) (by simp) (by decide) (by decide) (by decide) (by decide)
    (by decide)

/-- C12, counterexample to the claim as stated: the callable `printThrow 1` subscribed twice
on the empty channel, neither time one-shot, with `rand()` giving `3` and then `5`. There are
two entries, and `rise` calls the callable once: the first call throws. -/
theorem same_callable_twice_called_once :
    run demoInvoke (randOf [3, 5]) 1 ⟨(Event.empty : Event DemoHandler), 0, []⟩
        [Op.subscribe (DemoHandler.printThrow 1) false,
          Op.subscribe (DemoHandler.printThrow 1) false]
      = some ⟨⟨⟨[(3, DemoHandler.printThrow 1), (5, DemoHandler.printThrow 1)], by decide⟩,
          []⟩, 2, []⟩
    ∧ ((Event.mk ⟨[(3, DemoHandler.printThrow 1), (5, DemoHandler.printThrow 1)], by decide⟩
        []).rise demoInvoke 7 []).calls = [(3, DemoHandler.printThrow 1, 7)] := by
  decide

/-! ### Claims C13 and C16 -/

/-- When the values of `rand()` from `pos` up to `n` are all rejected and the one at `n` is
not, `generateHandlerID` returns that one as soon as it may draw it. -/
theorem Event.generateHandlerID_first (g : Nat → Int) (s : Event H) (n : Nat)
    (hn : g n ≠ 0 ∧ s.mHandlers.find (g n) = none) (fuel pos : Nat) (hpos : pos ≤ n)
    (hrej : ∀ m, pos ≤ m → m < n → g m = 0 ∨ (s.mHandlers.find (g m)).isSome = true)
    (hfuel : n - pos < fuel) :
    Event.generateHandlerID g s fuel pos = some (g n, n + 1) := by
  induction fuel generalizing pos with
  | zero => omega
  | succ k ih =>
    simp only [Event.generateHandlerID]
    rcases Nat.eq_or_lt_of_le hpos with e | hlt
    · subst e
      rw [if_neg]
      rw [not_or]
      exact ⟨hn.1, by simp [hn.2]⟩
    · rw [if_pos (hrej pos (Nat.le_refl _) hlt)]
      exact ih (pos + 1) hlt (fun m h1 h2 => hrej m (by omega) h2) (by omega)

/-- When every value that `generateHandlerID` may draw is rejected, it does not return. -/
theorem Event.generateHandlerID_none (g : Nat → Int) (s : Event H) (fuel pos : Nat)
    (hrej : ∀ m, pos ≤ m → m < pos + fuel →
      g m = 0 ∨ (s.mHandlers.find (g m)).isSome = true) :
    Event.generateHandlerID g s fuel pos = none := by
  induction fuel generalizing pos with
  | zero => rfl
  | succ k ih =>
    simp only [Event.generateHandlerID]
    rw [if_pos (hrej pos (Nat.le_refl _) (by omega))]
    exact ih (pos + 1) (fun m h1 h2 => hrej m (by omega) (by omega))

/-- The ID that `generateHandlerID` returns is the last value it drew. -/
theorem Event.generateHandlerID_drawn (g : Nat → Int) (s : Event H) (fuel pos : Nat) (id : Int)
    (pos' : Nat) (hg : Event.generateHandlerID g s fuel pos = some (id, pos')) :
    ∃ n, pos ≤ n ∧ pos' = n + 1 ∧ id = g n := by
  induction fuel generalizing pos with
  | zero => simp [Event.generateHandlerID] at hg
  | succ k ih =>
    simp only [Event.generateHandlerID] at hg
    split_ifs at hg with hc
    · obtain ⟨n, h1, h2, h3⟩ := ih (pos + 1) hg
      exact ⟨n, by omega, h2, h3⟩
    · simp only [Option.some.injEq, Prod.mk.injEq] at hg
      exact ⟨pos, Nat.le_refl _, hg.2.symm, hg.1.symm⟩

/-- Among the values of `rand()` from `pos` on, an acceptable one has a first one. -/
theorem exists_first_acceptable (g : Nat → Int) (s : Event H) (pos : Nat)
    (hex : ∃ n, pos ≤ n ∧ g n ≠ 0 ∧ s.mHandlers.find (g n) = none) :
    ∃ n, pos ≤ n ∧ (g n ≠ 0 ∧ s.mHandlers.find (g n) = none)
      ∧ ∀ m, pos ≤ m → m < n → g m = 0 ∨ (s.mHandlers.find (g m)).isSome = true := by
  classical
  refine ⟨Nat.find hex, (Nat.find_spec hex).1, (Nat.find_spec hex).2, ?_⟩
  intro m h1 h2
  have hmin := Nat.find_min hex h2
  by_contra hc
  rw [not_or] at hc
  apply hmin
  refine ⟨h1, hc.1, ?_⟩
  cases hf : s.mHandlers.find (g m) with
  | none => rfl
  | some v => simp [hf] at hc

/-- C13 (as amended): there is no exhaustion check. ID allocation terminates exactly when
`rand()` produces, at or after the current draw, a nonzero value that is not a registered ID;
otherwise `generateHandlerID` retries for ever and `subscribe` never returns, whatever the
number of draws it is allowed. -/
theorem id_allocation_terminates_iff (g : Nat → Int) (s : Event H) (pos : Nat) (h : H)
    (o : Bool) :
    ((∃ fuel, (Event.generateHandlerID g s fuel pos).isSome = true)
      ↔ ∃ n, pos ≤ n ∧ g n ≠ 0 ∧ s.mHandlers.find (g n) = none)
    ∧ ((∃ fuel, (s.subscribe g fuel pos h o).isSome = true)
      ↔ ∃ n, pos ≤ n ∧ g n ≠ 0 ∧ s.mHandlers.find (g n) = none) := by
  have hgen : (∃ fuel, (Event.generateHandlerID g s fuel pos).isSome = true)
      ↔ ∃ n, pos ≤ n ∧ g n ≠ 0 ∧ s.mHandlers.find (g n) = none := by
    constructor
    · rintro ⟨fuel, hf⟩
      obtain ⟨⟨id, pos'⟩, hr⟩ := Option.isSome_iff_exists.1 hf
      obtain ⟨n, h1, _, h3⟩ := Event.generateHandlerID_drawn g s fuel pos id pos' hr
      obtain ⟨h4, h5⟩ := Event.generateHandlerID_spec g s fuel pos id pos' hr
      exact ⟨n, h1, h3 ▸ h4, h3 ▸ h5⟩
    · intro hex
      obtain ⟨n, h1, h2, h3⟩ := exists_first_acceptable g s pos hex
      refine ⟨n - pos + 1, ?_⟩
      rw [Event.generateHandlerID_first g s n h2 _ pos h1 h3 (by omega)]
      rfl
  refine ⟨hgen, ?_⟩
  rw [← hgen]
  constructor
  · rintro ⟨fuel, hf⟩
    refine ⟨fuel, ?_⟩
    unfold Event.subscribe at hf
    cases hgn : Event.generateHandlerID g s fuel pos with
    | none => simp [hgn] at hf
    | some r => rfl
  · rintro ⟨fuel, hf⟩
    refine ⟨fuel, ?_⟩
    obtain ⟨⟨id, pos'⟩, hr⟩ := Option.isSome_iff_exists.1 hf
    unfold Event.subscribe
    rw [hr]
    rfl

/-- C13, counterexample to the claim as stated: the IDs `1` and `2` are registered and
`rand()` gives `0, 1, 2, 0, 1, 2, ...`, so every nonzero value it can produce is a registered
ID. However many draws are allowed, neither `generateHandlerID` nor `subscribe` returns: the
loop does not end and nothing is reported. -/
theorem id_allocation_loops_on_exhaustion :
    ¬ ((∃ fuel, (Event.generateHandlerID randCycle demoFull fuel 0).isSome = true)
      ∨ (∃ fuel, (demoFull.subscribe randCycle fuel 0 (DemoHandler.print 3) false).isSome
          = true)) := by
  have hrej : ∀ m : Nat, randCycle m = 0
      ∨ (demoFull.mHandlers.find (randCycle m)).isSome = true := by
    intro m
    have h3 : m % 3 = 0 ∨ m % 3 = 1 ∨ m % 3 = 2 := by omega
    unfold randCycle
    rcases h3 with e | e | e <;> rw [e]
    · left; rfl
    · right; decide
    · right; decide
  have hnone : ∀ fuel, Event.generateHandlerID randCycle demoFull fuel 0 = none :=
    fun fuel => Event.generateHandlerID_none randCycle demoFull fuel 0 (fun m _ _ => hrej m)
  rintro (⟨fuel, hf⟩ | ⟨fuel, hf⟩)
  · rw [hnone fuel] at hf
    cases hf
  · unfold Event.subscribe at hf
    rw [hnone fuel] at hf
    cases hf

/-- C16: when the values of `rand()` from the current draw on contain one that is nonzero and
not a registered ID, `generateHandlerID` terminates and returns the first such value, having
drawn exactly the values up to and including it: with `n` the place of that value, it returns
`g n` and the count `n + 1` whenever it may make more than `n - pos` draws, and it is still
retrying after `n - pos` draws or fewer. -/
theorem generateHandlerID_returns_first_acceptable (g : Nat → Int) (s : Event H) (pos : Nat)
    (hex : ∃ n, pos ≤ n ∧ g n ≠ 0 ∧ s.mHandlers.find (g n) = none) :
    ∃ n, pos ≤ n ∧ (g n ≠ 0 ∧ s.mHandlers.find (g n) = none)
      ∧ (∀ m, pos ≤ m → m < n → g m = 0 ∨ (s.mHandlers.find (g m)).isSome = true)
      ∧ (∀ fuel, n - pos < fuel → Event.generateHandlerID g s fuel pos = some (g n, n + 1))
      ∧ (∀ fuel, fuel ≤ n - pos → Event.generateHandlerID g s fuel pos = none) := by
  obtain ⟨n, h1, h2, h3⟩ := exists_first_acceptable g s pos hex
  refine ⟨n, h1, h2, h3, ?_, ?_⟩
  · intro fuel hf
    exact Event.generateHandlerID_first g s n h2 fuel pos h1 h3 hf
  · intro fuel hf
    exact Event.generateHandlerID_none g s fuel pos (fun m a b => h3 m a (by omega))

/-- C16, witness: the ID `5` is registered and `rand()` gives `0, 5, 3`: the first acceptable
value is `3`, the third draw. -/
theorem generateHandlerID_returns_first_acceptable_witness :
    Event.generateHandlerID (randOf [0, 5, 3])
        (Event.mk ⟨[(5, DemoHandler.print 1)], by decide⟩ []) 3 0 = some (3, 3)
    ∧ ∃ n, 0 ≤ n
      ∧ (randOf [0, 5, 3] n ≠ 0
        ∧ (Event.mk ⟨[(5, DemoHandler.print 1)], by decide⟩ []).mHandlers.find
            (randOf [0, 5, 3] n) = none)
      ∧ (∀ m, 0 ≤ m → m < n → randOf [0, 5, 3] m = 0
        ∨ ((Event.mk ⟨[(5, DemoHandler.print 1)], by decide⟩ []).mHandlers.find
            (randOf [0, 5, 3] m)).isSome = true)
      ∧ (∀ fuel, n - 0 < fuel →
        Event.generateHandlerID (randOf [0, 5, 3])
          (Event.mk ⟨[(5, DemoHandler.print 1)], by decide⟩ []) fuel 0
          = some (randOf [0, 5, 3] n, n + 1))
      ∧ (∀ fuel, fuel ≤ n - 0 →
        Event.generateHandlerID (randOf [0, 5, 3])
          (Event.mk ⟨[(5, DemoHandler.print 1)], by decide⟩ []) fuel 0 = none) :=
  ⟨by decide, generateHandlerID_returns_first_acceptable (randOf [0, 5, 3])
    (Event.mk ⟨[(5, DemoHandler.print 1)], by decide⟩ []) 0
    ⟨2, by decide, by decide, by decide⟩⟩

/-! ### Claim C14 -/

theorem lockReplay_append (held : Bool) (t1 t2 : List Action) :
    lockReplay held (t1 ++ t2) = (lockReplay held t1).bind (fun b => lockReplay b t2) := by
  induction t1 generalizing held with
  | nil => rfl
  | cons a rest ih =>
    cases a with
    | lock => cases held <;> simp [lockReplay, ih]
    | unlock => cases held <;> simp [lockReplay, ih]
    | access => cases held <;> simp [lockReplay, ih]
    | call id => simp [lockReplay, ih]

/-- Accesses and handler calls leave a held lock held. -/
theorem lockReplay_held (t : List Action)
    (ht : ∀ a ∈ t, a = Action.access ∨ ∃ id, a = Action.call id) :
    lockReplay true t = some true := by
  induction t with
  | nil => rfl
  | cons a rest ih =>
    have hrest := ih (fun b hb => ht b (List.mem_cons_of_mem _ hb))
    rcases ht a (List.mem_cons_self _ _) with e | ⟨id, e⟩
    · subst e; simp [lockReplay, hrest]
    · subst e; simp [lockReplay, hrest]

theorem Event.generateHandlerIDActions_body (g : Nat → Int) (s : Event H) (fuel pos : Nat)
    (t : List Action) (ht : Event.generateHandlerIDActions g s fuel pos = some t) :
    ∀ a ∈ t, a = Action.access ∨ ∃ id, a = Action.call id := by
  induction fuel generalizing pos t with
  | zero => simp [Event.generateHandlerIDActions] at ht
  | succ k ih =>
    simp only [Event.generateHandlerIDActions] at ht
    split_ifs at ht with h0 h1
    · exact ih (pos + 1) t ht
    · cases hr : Event.generateHandlerIDActions g s k (pos + 1) with
      | none => simp [hr] at ht
      | some t' =>
        simp only [hr, Option.map_some', Option.some.injEq] at ht
        subst ht
        intro a ha
        rcases List.mem_cons.1 ha with e | ha'
        · exact Or.inl e
        · exact ih (pos + 1) t' hr a ha'
    · simp only [Option.some.injEq] at ht
      subst ht
      intro a ha
      simp only [List.mem_singleton] at ha
      exact Or.inl ha

/-- The steps of `generateHandlerID` are defined exactly when `generateHandlerID` returns. -/
theorem Event.generateHandlerIDActions_isSome (g : Nat → Int) (s : Event H) (fuel pos : Nat) :
    (Event.generateHandlerIDActions g s fuel pos).isSome
      = (Event.generateHandlerID g s fuel pos).isSome := by
  induction fuel generalizing pos with
  | zero => rfl
  | succ k ih =>
    simp only [Event.generateHandlerIDActions, Event.generateHandlerID]
    by_cases h0 : g pos = 0
    · simp [h0, ih]
    · by_cases h1 : (s.mHandlers.find (g pos)).isSome = true
      · simp [h0, h1, ih]
      · simp [h0, h1]

theorem Event.callActions_body (cs : List (Int × H × A)) :
    ∀ a ∈ (Event.callActions cs), a = Action.access ∨ ∃ id, a = Action.call id := by
  induction cs with
  | nil => simp [Event.callActions]
  | cons c rest ih =>
    intro a ha
    simp only [Event.callActions, List.mem_cons] at ha
    rcases ha with e | e | ha'
    · exact Or.inl e
    · exact Or.inr ⟨c.1, e⟩
    · exact ih a ha'

/-- A guarded body of accesses and handler calls, started with the lock free, ends with the
lock free and makes every access with the lock held. -/
theorem lockReplay_guarded (t : List Action)
    (ht : ∀ a ∈ t, a = Action.access ∨ ∃ id, a = Action.call id) :
    lockReplay false (SyncPolicy.SafeSyncPolicy.ctor ++ t ++ SyncPolicy.SafeSyncPolicy.dtor)
      = some false := by
  rw [lockReplay_append, lockReplay_append]
  have h1 : lockReplay false SyncPolicy.SafeSyncPolicy.ctor = some true := rfl
  rw [h1, Option.some_bind, lockReplay_held t ht, Option.some_bind]
  rfl

/-- C14: under `SafeSyncPolicy`, with the lock modelled as a held/free flag, each of
`subscribe`, `unsubscribe` and `rise` started with the lock free takes the lock before its
first access of `mHandlers` or `mOneShotHandlerIDs`, makes every access while the lock is
held, and ends with the lock free: `subscribe` whenever it returns, `unsubscribe` always, and
`rise` always, also when a handler throws. -/
theorem safe_policy_lock_discipline (invoke : H → A → W → W × Option E) (g : Nat → Int)
    (fuel : Nat) :
    (∀ (s : Event H) (pos : Nat) (h : H) (o : Bool),
        (s.subscribe g fuel pos h o).isSome = true →
        ∃ t, s.subscribeActions SyncPolicy.SafeSyncPolicy g fuel pos o = some t
          ∧ t.head? = some Action.lock ∧ lockReplay false t = some false)
    ∧ ((Event.unsubscribeActions SyncPolicy.SafeSyncPolicy).head? = some Action.lock
      ∧ lockReplay false (Event.unsubscribeActions SyncPolicy.SafeSyncPolicy) = some false)
    ∧ (∀ (s : Event H) (args : A) (w : W),
        (s.riseActions SyncPolicy.SafeSyncPolicy invoke args w).head? = some Action.lock
        ∧ lockReplay false (s.riseActions SyncPolicy.SafeSyncPolicy invoke args w)
          = some false) := by
  refine ⟨?_, ⟨rfl, rfl⟩, ?_⟩
  · intro s pos h o hs
    have hgen : (Event.generateHandlerIDActions g s fuel pos).isSome = true := by
      rw [Event.generateHandlerIDActions_isSome]
      unfold Event.subscribe at hs
      cases hgn : Event.generateHandlerID g s fuel pos with
      | none => simp [hgn] at hs
      | some r => rfl
    obtain ⟨t, ht⟩ := Option.isSome_iff_exists.1 hgen
    have hbody := Event.generateHandlerIDActions_body g s fuel pos t ht
    refine ⟨SyncPolicy.SafeSyncPolicy.ctor ++ t ++ [Action.access]
      ++ (if o = true then [Action.access] else []) ++ SyncPolicy.SafeSyncPolicy.dtor,
      by unfold Event.subscribeActions; rw [ht], rfl, ?_⟩
    have hall : ∀ a ∈ t ++ [Action.access] ++ (if o = true then [Action.access] else []),
        a = Action.access ∨ ∃ id, a = Action.call id := by
      intro a ha
      simp only [List.mem_append, List.mem_singleton] at ha
      rcases ha with (ha | ha) | ha
      · exact hbody a ha
      · exact Or.inl ha
      · split_ifs at ha
        · simp only [List.mem_singleton] at ha
          exact Or.inl ha
        · simp at ha
    have := lockReplay_guarded _ hall
    simpa [List.append_assoc] using this
  · intro s args w
    constructor
    · rfl
    · have hall : ∀ a ∈ Event.callActions (s.rise invoke args w).calls
          ++ (match (s.rise invoke args w).raised with
              | some _ => []
              | none =>
                Action.access :: (s.mOneShotHandlerIDs.map (fun _ => Action.access)
                  ++ [Action.access])),
          a = Action.access ∨ ∃ id, a = Action.call id := by
        intro a ha
        rcases List.mem_append.1 ha with ha | ha
        · exact Event.callActions_body _ a ha
        · cases hr : (s.rise invoke args w).raised with
          | some e => simp [hr] at ha
          | none =>
            simp only [hr, List.mem_cons, List.mem_append, List.mem_map,
              List.mem_singleton] at ha
            rcases ha with e | ⟨_, _, e⟩ | e | e
            · exact Or.inl e
            · exact Or.inl e.symm
            · exact Or.inl e
            · simp at e
      have := lockReplay_guarded _ hall
      unfold Event.riseActions
      simpa [List.append_assoc] using this

/-- C14, witness: `subscribe` on a channel holding ID `5` with `rand()` giving `0, 5, 3`, and
a `rise` whose first handler throws: its steps are the lock, the read and the call of handler
`1`, and the unlock. Without the guard the same accesses are made with the lock free. -/
theorem safe_policy_lock_discipline_witness :
    (∃ t, (Event.mk ⟨[(5, DemoHandler.print 1)], by decide⟩ []).subscribeActions
          SyncPolicy.SafeSyncPolicy (randOf [0, 5, 3]) 3 0 true = some t
        ∧ t.head? = some Action.lock ∧ lockReplay false t = some false)
    ∧ demoThrowFirst.riseActions SyncPolicy.SafeSyncPolicy demoInvoke 7 []
        = [Action.lock, Action.access, Action.call 1, Action.unlock]
    ∧ lockReplay false (demoThrowFirst.riseActions SyncPolicy.SafeSyncPolicy demoInvoke 7 [])
        = some false
    ∧ lockReplay false (demoThrowFirst.riseActions SyncPolicy.UnsafeSyncPolicy demoInvoke 7 [])
        = none :=
  ⟨(safe_policy_lock_discipline demoInvoke (randOf [0, 5, 3]) 3).1
      (Event.mk ⟨[(5, DemoHandler.print 1)], by decide⟩ []) 0 (DemoHandler.print 2) true
      (by decide),
    by decide,
    ((safe_policy_lock_discipline demoInvoke (randOf [0, 5, 3]) 3).2.2 demoThrowFirst 7 []).2,
    by decide⟩

/-! ### Claims C17 and C18 -/

end Events
